import Mathlib

/-!
Verification development for the adawft watch-face tool.

The definitions below are shallow embeddings of the C sources:
  * `byteAt`, `getU16`, `getU32` — the byte-array loads and the `get_u16` /
    `get_u32` little-endian read macros of `src/types.h` (a C byte array is
    modelled as an unrestricted memory oracle `Nat → Nat`; a load of a `u8`
    cell is `mem i % 256`, and indices past the buffer length model the
    adjacent heap memory the unchecked C pointer arithmetic can reach);
  * `rleDecode` — the RLE_NEW decompression loop of `convertImg`
    (`src/bmp.c`, IF_RLE_NEW → IF_ARGB8565 branch);
  * `rgb888to565`, `rgb565to888`, the pixel conversions of `src/bmp.c`, and
    `convertImg` — the format-conversion dispatch of `src/bmp.c`;
  * `resolveImageSize` — the compressed-size computation shared by
    `dumpImageSemi` / `dumpImageBMP` in `src/dump.c`;
  * `setBMPHeaderClassic` / `setBMPHeaderV4` / `setBMPHeaderV5` — the BMP
    header builders of `src/bmp.c` (u32 arithmetic is taken mod 2^32, the
    i32 header fields live in `Int` via `i32ofNat`);
  * `tagAdvance`, `parseChain` — the record-chain dispatch loop of `main`
    in `src/adawft.c` (struct sizes are the `#pragma pack(1)` sizeofs of
    `src/face_new.h`; the BarDisplay size arithmetic reproduces the C
    `size_t` wraparound for `count - 1` exactly, mod 2^64).

Definitions suffixed `Spec` are *not* taken from the C code: they transcribe
the natural-language specification, and the theorems compare the two.
-/

namespace Adawft

/-- Load of one `u8` cell of a C byte array: the array is modelled as a
memory oracle `Nat → Nat`, and a `u8` read truncates to a byte. -/
def byteAt (mem : Nat → Nat) (i : Nat) : Nat := mem i % 256

/-- The `get_u16` macro of `src/types.h`: `p[0] | (p[1] << 8)`, an unchecked
little-endian 16-bit read at an arbitrary offset. -/
def getU16 (mem : Nat → Nat) (off : Nat) : Nat :=
  byteAt mem off ||| (byteAt mem (off + 1) <<< 8)

/-- The `get_u32` macro of `src/types.h`:
`p[0] | (p[1] << 8) | (p[2] << 16) | (p[3] << 24)`, unchecked. -/
def getU32 (mem : Nat → Nat) (off : Nat) : Nat :=
  byteAt mem off ||| (byteAt mem (off + 1) <<< 8) |||
  (byteAt mem (off + 2) <<< 16) ||| (byteAt mem (off + 3) <<< 24)

/-- The inner loop of the RLE repeat command: the 3-byte pixel `[a, b, c]`
emitted `n` times (the `for(j=0; j<count; j++)` loop of `convertImg`). -/
def repeatPixel (a b c : Nat) : Nat → List Nat
  | 0 => []
  | n + 1 => a :: b :: c :: repeatPixel a b c n

/-- The RLE_NEW decompression loop of `convertImg` in `src/bmp.c`
(`while(bytesIn < i->size)`), with an explicit fuel argument so that the
function is structurally recursive; `fuel = size` always suffices because
every iteration consumes at least one input byte.  A repeat command
(`cmd & 0x80` set) reads the next 3 bytes and emits them `cmd & 0x7F`
times; a literal command copies the next `3*cmd` bytes.  The loop performs
no bounds check beyond `bytesIn < size`, so a command's operand bytes are
read even when they lie at indices `≥ size`. -/
def rleAux (data : Nat → Nat) (size : Nat) : Nat → Nat → List Nat
  | 0, _ => []
  | fuel + 1, b =>
    if b < size then
      let cmd := byteAt data b
      if cmd &&& 0x80 ≠ 0 then
        repeatPixel (byteAt data (b + 1)) (byteAt data (b + 2)) (byteAt data (b + 3))
            (cmd &&& 0x7F)
          ++ rleAux data size fuel (b + 4)
      else
        (List.range (cmd * 3)).map (fun j => byteAt data (b + 1 + j))
          ++ rleAux data size fuel (b + 1 + cmd * 3)
    else []

/-- RLE_NEW decode of `size` declared input bytes starting at index 0. -/
def rleDecode (data : Nat → Nat) (size : Nat) : List Nat :=
  rleAux data size size 0

/-- The list `p` appended `n` times (used by the spec-side decoder). -/
def repList (n : Nat) (p : List Nat) : List Nat :=
  match n with
  | 0 => []
  | m + 1 => p ++ repList m p

/-- Spec-side RLE decoder, transcribed from the specification text (§4.3):
read one command byte; if its high bit is set the low 7 bits are a repeat
count and the next 3 bytes are one pixel appended that many times;
otherwise the byte is a literal pixel count and the next `3n` bytes are
copied verbatim; continue until the input is exhausted.  This definition is
compared against the embedding `rleDecode` of the C loop. -/
def rleDecodeSpec (l : List Nat) : List Nat :=
  match l with
  | [] => []
  | cmd :: rest =>
    if cmd &&& 0x80 ≠ 0 then
      repList (cmd &&& 0x7F) (rest.take 3) ++ rleDecodeSpec (rest.drop 3)
    else
      rest.take (3 * cmd) ++ rleDecodeSpec (rest.drop (3 * cmd))
termination_by l.length
decreasing_by
  all_goals simp [List.length_drop]; omega

/-- Well-formed RLE streams: every command's operand bytes are present
inside the declared input. -/
inductive RLEWF : List Nat → Prop
  | nil : RLEWF []
  | rep (cmd p1 p2 p3 : Nat) (rest : List Nat) :
      cmd &&& 0x80 ≠ 0 → RLEWF rest → RLEWF (cmd :: p1 :: p2 :: p3 :: rest)
  | lit (cmd : Nat) (payload rest : List Nat) :
      cmd &&& 0x80 = 0 → payload.length = 3 * cmd → RLEWF rest →
      RLEWF (cmd :: (payload ++ rest))

/-- The image formats of the `ImgFormat` enum in `src/bmp.h`. -/
inductive ImgFormat
  | ARGB8888
  | ARGB8565
  | RLE_NEW
deriving DecidableEq

/-- The `Img` struct of `src/bmp.h`: width, height, format, declared data
size in bytes, and the data bytes (as a memory oracle, see `byteAt`). -/
structure Img where
  w : Nat
  h : Nat
  format : ImgFormat
  size : Nat
  data : Nat → Nat

/-- `RGB888to565` of `src/bmp.c`: truncate each 8-bit channel to the top
5/6/5 bits, packing blue low.  The arguments are the bytes `buf[0..2]`,
read by the C function as blue, green, red. -/
def rgb888to565 (b g r : Nat) : Nat :=
  ((b &&& 0xF8) >>> 3) ||| ((g &&& 0xFC) <<< 3) ||| ((r &&& 0xF8) <<< 8)

/-- `swap_bo_u16` of `src/types.h`. -/
def swapBoU16 (v : Nat) : Nat :=
  ((v &&& 0xFF) <<< 8) ||| ((v &&& 0xFF00) >>> 8)

/-- `RGB565to888` of `src/bmp.c`.  The input pixel is first byte-swapped;
the result is the `(r, g, b)` triple of the returned `RGBTrip` struct. -/
def rgb565to888 (pixel0 : Nat) : Nat × Nat × Nat :=
  let pixel := swapBoU16 pixel0
  let b := ((pixel &&& 0x001F) <<< 3) ||| ((pixel &&& 0x001C) >>> 3)
  let g := ((pixel &&& 0x07E0) >>> 3) ||| ((pixel &&& 0x0600) >>> 9)
  let r := ((pixel &&& 0xF800) >>> 8) ||| ((pixel &&& 0xE000) >>> 13)
  (r, g, b)

/-- One pixel of the ARGB8888 → ARGB8565 loop of `convertImg`
(`src/bmp.c`): the four input bytes `p[0..3]` of the source pixel map to
the three output bytes `(p[0], rgb565 low byte, rgb565 high byte)` where
`rgb565 = RGB888to565(&p[1])`. -/
def pix8888to8565 (p0 p1 p2 p3 : Nat) : Nat × Nat × Nat :=
  let v := rgb888to565 p1 p2 p3
  (p0, v &&& 0xFF, v >>> 8)

/-- One pixel of the ARGB8565 → ARGB8888 loop of `convertImg`
(`src/bmp.c`): the three input bytes `p[0..2]` map to the output struct
`ARGB8888 {b; g; r; a}` (byte order `b, g, r, a` per `src/bmp.h`), with
`a = p[0]` and `(r,g,b) = RGB565to888(get_u16(&p[1]))`. -/
def pix8565to8888 (q0 q1 q2 : Nat) : Nat × Nat × Nat × Nat :=
  let t := rgb565to888 (q1 ||| (q2 <<< 8))
  (t.2.2, t.2.1, t.1, q0)

/-- The full ARGB8888 → ARGB8565 image conversion of `convertImg`:
output byte `3*pix + k` comes from input bytes `4*pix .. 4*pix+3`.
Bytes past the output size model the uninitialised tail of the allocation
(never read by the program) as 0. -/
def conv8888to8565 (i : Img) : Img :=
  { w := i.w, h := i.h, format := .ARGB8565, size := i.w * i.h * 3,
    data := fun idx =>
      if idx < i.w * i.h * 3 then
        let pix := idx / 3
        let t := pix8888to8565 (byteAt i.data (4 * pix)) (byteAt i.data (4 * pix + 1))
          (byteAt i.data (4 * pix + 2)) (byteAt i.data (4 * pix + 3))
        if idx % 3 = 0 then t.1 else if idx % 3 = 1 then t.2.1 else t.2.2
      else 0 }

/-- The full ARGB8565 → ARGB8888 image conversion of `convertImg`. -/
def conv8565to8888 (i : Img) : Img :=
  { w := i.w, h := i.h, format := .ARGB8888, size := i.w * i.h * 4,
    data := fun idx =>
      if idx < i.w * i.h * 4 then
        let pix := idx / 4
        let t := pix8565to8888 (byteAt i.data (3 * pix)) (byteAt i.data (3 * pix + 1))
          (byteAt i.data (3 * pix + 2))
        if idx % 4 = 0 then t.1 else if idx % 4 = 1 then t.2.1
        else if idx % 4 = 2 then t.2.2.1 else t.2.2.2
      else 0 }

/-- The RLE_NEW → ARGB8565 conversion of `convertImg`: decompress the
declared `size` input bytes; the new image's declared size is `w*h*3`
regardless of how many bytes the decoder produced. -/
def convRLEto8565 (i : Img) : Img :=
  { w := i.w, h := i.h, format := .ARGB8565, size := i.w * i.h * 3,
    data := fun idx => (rleDecode i.data i.size).getD idx 0 }

/-- The `convertImg` dispatch of `src/bmp.c`, one row per
(target format, source format) pair.  RLE_NEW → ARGB8888 goes through the
intermediate ARGB8565 format (the C function re-calls itself); every
request whose target is RLE_NEW returns NULL — either through the
`COMPRESSION NOT YET IMPLEMENTED` branch (after an ARGB8888 source has
been reduced to ARGB8565) or through the final `Reached unexpected point`
branch — as do the same-format requests, which fall through every branch
to the final error. -/
def convertImg (i : Img) (nf : ImgFormat) : Option Img :=
  match nf, i.format with
  | .ARGB8888, .RLE_NEW => some (conv8565to8888 (convRLEto8565 i))
  | .ARGB8888, .ARGB8565 => some (conv8565to8888 i)
  | .ARGB8565, .ARGB8888 => some (conv8888to8565 i)
  | .ARGB8565, .RLE_NEW => some (convRLEto8565 i)
  | .RLE_NEW, _ => none
  | _, _ => none

/-- The compressed-image size computation shared by `dumpImageSemi` and
`dumpImageBMP` in `src/dump.c`: read the last row-offset-table entry
(`lastOffset` at `headerSize-4`, `lastSize` at `headerSize-2`); if the low
5 bits of `lastSize` are non-zero, fail (the C functions print an error and
return 1); otherwise the size is `lastOffset + lastSize/32 - headerSize`.
All index and size arithmetic is C `size_t` arithmetic, taken mod 2^64.
No comparison against the remaining buffer length is performed. -/
def resolveImageSize (mem : Nat → Nat) (height : Nat) : Option Nat :=
  -- headerSize = height * 4; lastOffset read at headerSize - 4 and lastSize
  -- at headerSize - 2, all in size_t (mod 2^64) arithmetic
  if getU16 mem ((height * 4 % 2 ^ 64 + (2 ^ 64 - 2)) % 2 ^ 64) &&& 0x1F ≠ 0 then none
  else
    some ((getU16 mem ((height * 4 % 2 ^ 64 + (2 ^ 64 - 4)) % 2 ^ 64) +
      getU16 mem ((height * 4 % 2 ^ 64 + (2 ^ 64 - 2)) % 2 ^ 64) / 32 +
      (2 ^ 64 - height * 4 % 2 ^ 64)) % 2 ^ 64)

/-- Spec-side size resolver, transcribed from the specification text
(§4.2): the low 5 bits of the last size field extend the 16-bit offset,
`trueOffset = lastOffset + ((lastSize & 0x1F) << 16)`, the remaining bits
are the final row's byte count, the result is
`trueOffset + finalRowSize - 4*height`, and the only failure is the
computed length exceeding the remaining buffer.  This definition is
compared against the embedding `resolveImageSize` of the C code. -/
def resolveImageSizeSpec (mem : Nat → Nat) (height remaining : Nat) : Option Nat :=
  let lastOffset := getU16 mem (height * 4 - 4)
  let lastSize := getU16 mem (height * 4 - 2)
  let trueOffset := lastOffset + ((lastSize &&& 0x1F) <<< 16)
  let len := trueOffset + (lastSize >>> 5) - 4 * height
  if remaining < len then none else some len

/-- The record type tags handled by the `switch` of `main` in
`src/adawft.c` (the terminator 0x0000 is handled separately). -/
def isKnownTag (t : Nat) : Bool :=
  t == 0x0001 || t == 0x0101 || t == 0x0201 || t == 0x0401 || t == 0x0501 ||
  t == 0x0601 || t == 0x0701 || t == 0x0901 || t == 0x0A01 || t == 0x0D01 ||
  t == 0x0F01 || t == 0x1201 || t == 0x1B01 || t == 0x1D01 || t == 0x2301 ||
  t == 0x1401 || t == 0xEC02 || t == 0x4C01 || t == 0x8801 || t == 0x2C01 ||
  t == 0x6001 || t == 0xD001

/-- The `sizeof` (under `#pragma pack(1)`) of the fixed-size header struct
of each non-BarDisplay record tag, per `src/face_new.h`. -/
def structSize (t : Nat) : Nat :=
  match t with
  | 0x0001 => 14   -- StaticHeader
  | 0x0101 => 85   -- DigitsHeader
  | 0x0201 => 34   -- TimeHeader
  | 0x0401 => 63   -- DayNameHeader
  | 0x0501 => 42   -- BatteryFillHeader
  | 0x0601 => 26   -- HeartRateNumHeader
  | 0x0701 => 26   -- StepsNumHeader
  | 0x0901 => 19   -- KCalHeader
  | 0x0A01 => 19   -- HandsHeader
  | 0x0D01 => 12   -- DayNumHeader
  | 0x0F01 => 12   -- MonthNumHeader
  | 0x1B01 => 79   -- WeatherHeader
  | 0x1D01 => 3    -- Unknown1D01
  | 0x2301 => 10   -- Unknown2301
  | _ => 83        -- AltDigitsHeader (its seven tags)

/-- The cursor advance of the BarDisplay case of `main`:
`sizeof(BarDisplayHeader) + sizeof(OffsetWidthHeight) * (bdh->count - 1)`.
`count` is a `u8` promoted to `int`, so `count - 1` is `-1` when
`count = 0`; its conversion to `size_t` and the multiplication and
addition all wrap mod 2^64, exactly as written here. -/
def barAdvance (count : Nat) : Nat :=
  (16 + 8 * ((count + (2 ^ 64 - 1)) % 2 ^ 64)) % 2 ^ 64

/-- The per-record cursor advance of the dispatch `switch` in `main`
(`src/adawft.c`): a known tag advances by its struct's size — for
BarDisplay (0x1201) by `barAdvance` of the embedded count byte at
`offset + 3` — and an unknown tag yields `none` (the `default` case). -/
def tagAdvance (mem : Nat → Nat) (off : Nat) : Option Nat :=
  if isKnownTag (getU16 mem off) then
    if getU16 mem off = 0x1201 then some (barAdvance (byteAt mem (off + 3)))
    else some (structSize (getU16 mem off))
  else none

/-- How a run of the widget-chain loop of `main` ends: the 0x0000
terminator (cursor just past it), an unknown tag (its value and its
offset, the cursor not advanced past it), or fuel exhaustion of the
model. -/
inductive ChainEnd
  | cleanEnd : Nat → ChainEnd
  | unknownTag : Nat → Nat → ChainEnd
  | fuelOut : Nat → ChainEnd
deriving DecidableEq

/-- The widget-chain dispatch loop of `main` in `src/adawft.c`: read the
16-bit type tag at the cursor; 0x0000 terminates (advancing 2); a known
tag is recorded as a decoded record `(offset, tag)` and the cursor
advances by `tagAdvance`; an unknown tag stops the loop at once, without
advancing, surfacing the tag and its offset.  `fuel` bounds the number of
iterations of the model only. -/
def parseChain (mem : Nat → Nat) : Nat → Nat → List (Nat × Nat) × ChainEnd
  | 0, off => ([], .fuelOut off)
  | fuel + 1, off =>
    if getU16 mem off = 0 then ([], .cleanEnd (off + 2))
    else
      match tagAdvance mem off with
      | some adv =>
        ((off, getU16 mem off) :: (parseChain mem fuel (off + adv)).1,
          (parseChain mem fuel (off + adv)).2)
      | none => ([], .unknownTag (getU16 mem off) off)

/-- A C `u32` value reinterpreted as `i32` (two's complement), as `Int`. -/
def i32ofNat (n : Nat) : Int :=
  if n % 2 ^ 32 < 2 ^ 31 then (n % 2 ^ 32 : Nat)
  else (n % 2 ^ 32 : Nat) - 2 ^ 32

/-- The padded row size computed by all three BMP header builders of
`src/bmp.c`: `(((bpp/8) * width) + 3) & 0xFFFFFFFC` in u32 arithmetic. -/
def rowSizeU32 (bpp width : Nat) : Nat :=
  ((bpp / 8 * width + 3) % 2 ^ 32) &&& 0xFFFFFFFC

/-- The BMP header fields that the claims are about, common to
`BMPHeaderClassic` / `BMPHeaderV4` / `BMPHeaderV5` of `src/bmp.h`. -/
structure BMPHeader where
  sig : Nat
  fileSize : Nat
  offset : Nat
  dibHeaderSize : Nat
  width : Int
  height : Int
  planes : Nat
  bpp : Nat
  compressionType : Nat
  imageDataSize : Nat
  masks : List Nat
deriving DecidableEq

/-- `setBMPHeaderClassic` of `src/bmp.c` (bpp must be 16 or 24; any other
bpp leaves `offset` at its zero initialisation).
`sizeof(BMPHeaderClassic) = 66` under `#pragma pack(2)`. -/
def setBMPHeaderClassic (width height bpp : Nat) : BMPHeader :=
  let offset := if bpp = 16 then 66 else if bpp = 24 then 66 - 12 else 0
  let rowSize := rowSizeU32 bpp width
  let imageDataSize := rowSize * height % 2 ^ 32
  { sig := 0x4D42, fileSize := (imageDataSize + offset) % 2 ^ 32,
    offset := offset, dibHeaderSize := 40,
    width := i32ofNat width, height := - i32ofNat height,
    planes := 1, bpp := bpp,
    compressionType := if bpp = 16 then 3 else 0,
    imageDataSize := imageDataSize,
    masks := if bpp = 16 then [0xF800, 0x07E0, 0x001F] else [0, 0, 0] }

/-- `setBMPHeaderV4` of `src/bmp.c` (bpp must be 16, 24 or 32).
`sizeof(BMPHeaderV4) = 122` under `#pragma pack(2)`. -/
def setBMPHeaderV4 (width height bpp : Nat) : BMPHeader :=
  let rowSize := rowSizeU32 bpp width
  let imageDataSize := rowSize * height % 2 ^ 32
  { sig := 0x4D42, fileSize := (imageDataSize + 122) % 2 ^ 32,
    offset := 122, dibHeaderSize := 108,
    width := i32ofNat width, height := - i32ofNat height,
    planes := 1, bpp := bpp,
    compressionType := if bpp = 16 then 3 else if bpp = 32 then 3 else 0,
    imageDataSize := imageDataSize,
    masks := if bpp = 16 then [0xF800, 0x07E0, 0x001F, 0]
      else if bpp = 32 then [0xFF0000, 0x00FF00, 0x0000FF, 0xFF000000]
      else [0, 0, 0, 0] }

/-- `setBMPHeaderV5` of `src/bmp.c` (bpp must be 16, 24 or 32).
`sizeof(BMPHeaderV5) = 138` under `#pragma pack(2)`. -/
def setBMPHeaderV5 (width height bpp : Nat) : BMPHeader :=
  let rowSize := rowSizeU32 bpp width
  let imageDataSize := rowSize * height % 2 ^ 32
  { sig := 0x4D42, fileSize := (imageDataSize + 138) % 2 ^ 32,
    offset := 138, dibHeaderSize := 108 + 16,
    width := i32ofNat width, height := - i32ofNat height,
    planes := 1, bpp := bpp,
    compressionType := if bpp = 16 then 3 else if bpp = 32 then 3 else 0,
    imageDataSize := imageDataSize,
    masks := if bpp = 16 then [0xF800, 0x07E0, 0x001F, 0]
      else if bpp = 32 then [0xFF0000, 0x00FF00, 0x0000FF, 0xFF000000]
      else [0, 0, 0, 0] }

/-- Memory oracle holding the bytes of a concrete list (0 past its end). -/
def listMem (l : List Nat) : Nat → Nat := fun i => l.getD i 0

/-- A one-row row-offset table whose last size field has a non-zero low
5-bit part: `lastOffset = 0x0040`, `lastSize = 0x0021`. -/
def c1mem : Nat → Nat := listMem [0x40, 0x00, 0x21, 0x00]

/-- The two-row row-offset table of the specification's size-resolver test
vector: entries `(0x0000, 0x0020)` and `(0x0020, 0x0040)`. -/
def c1memW : Nat → Nat := listMem [0x00, 0x00, 0x20, 0x00, 0x20, 0x00, 0x40, 0x00]

/-- A 1×1 ARGB8888 image whose bytes are `[b, g, r, a] = [0, 0, 0, 255]`
(an opaque black pixel, in the byte order of the `ARGB8888` struct of
`src/bmp.h` used by `convertImg` and `imgToBMP`). -/
def c6img : Img := ⟨1, 1, .ARGB8888, 4, listMem [0, 0, 0, 255]⟩

/-- A file image for the widget-chain loop: a StaticHeader record
(tag 0x0001) at the chain start offset 16, covering bytes 16..29, followed
at offset 30 by the tag 0x0342, which is not in the known set. -/
def c5mem : Nat → Nat :=
  listMem [0, 0, 0, 0, 0, 0, 0, 0, 0, 0, 0, 0, 0, 0, 0, 0,
    0x01, 0x00, 10, 0, 20, 0, 0x80, 0, 0, 0, 30, 0, 40, 0,
    0x42, 0x03]

/-- A BarDisplayHeader record image: tag 0x1201 at offset 0, subtype 6 at
offset 2, count 5 at offset 3. -/
def c7mem : Nat → Nat := listMem [0x01, 0x12, 6, 5]

/-- A file image with two Unknown1D01 records (tag 0x1D01, 3 bytes each)
at offsets 16 and 19, then the 0x0000 terminator at offset 22. -/
def c10mem : Nat → Nat :=
  listMem [0, 0, 0, 0, 0, 0, 0, 0, 0, 0, 0, 0, 0, 0, 0, 0,
    0x01, 0x1D, 2, 0x01, 0x1D, 2, 0x00, 0x00]

/-- The all-zero memory oracle. -/
def zeroMem : Nat → Nat := fun _ => 0

/-- A memory differing from `zeroMem` only at indices ≥ 1. -/
def c2mem : Nat → Nat := fun i => if i = 0 then 0 else 7

/-- A 1-byte RLE stream `[0x81]` (a repeat command whose 3 pixel bytes lie
beyond the declared size), with adjacent memory all zero. -/
def c3memA : Nat → Nat := fun i => if i = 0 then 0x81 else 0

/-- The same 1-byte RLE stream `[0x81]`, with adjacent memory all 5. -/
def c3memB : Nat → Nat := fun i => if i = 0 then 0x81 else 5

/-!  Theorems.  Each claim theorem carries its claim id in its doc
comment; helper lemmas come first. -/

/-- C1, counterexample.  On a one-row table whose last size field is
0x0021 (low 5 bits = 1 ≠ 0), the size resolver of `src/dump.c` fails,
although the specification's resolver — which treats the low 5 bits as
offset-extension bits and fails only on exceeding the remaining buffer —
returns the length 0x0040 + (1 <<< 16) + 1 - 4 = 65597.  The claim that
the code computes that formula for every value of the low 5 bits is
therefore false. -/
theorem c1_counterexample :
    resolveImageSize c1mem 1 = none ∧
      resolveImageSizeSpec c1mem 1 1000000 = some 65597 := by
  decide

/-- C2, counterexample.  `get_u16` / `get_u32` perform no bounds check:
for a buffer of length L = 1, two memories that agree on every in-bounds
byte give different read results at offset 0, so the reads yield values
taken from outside the buffer instead of failing. -/
theorem c2_counterexample :
    (∀ i, i < 1 → zeroMem i = c2mem i) ∧
      getU16 zeroMem 0 ≠ getU16 c2mem 0 ∧ getU32 zeroMem 0 ≠ getU32 c2mem 0 := by
  decide

/-- C3, counterexample.  For the 1-byte RLE input `[0x81]` — a repeat
command whose 3 pixel bytes are missing from the declared input size —
the decode loop of `convertImg` does not fail: it reads the pixel bytes
from beyond the declared size, so two memories agreeing on every declared
input byte decode to different outputs. -/
theorem c3_counterexample :
    (∀ i, i < 1 → c3memA i = c3memB i) ∧
      rleDecode c3memA 1 ≠ rleDecode c3memB 1 := by
  decide

/-- C6, code evaluation at the failing input.  Converting the opaque black
ARGB8888 pixel `[b, g, r, a] = [0, 0, 0, 255]` to ARGB8565 and back with
`convertImg` yields `[195, 28, 0, 0]`: the alpha channel collapses from
255 to 0 (the encode direction stores byte 0 of the pixel — blue, per the
`ARGB8888` struct layout used by the decode direction and by `imgToBMP` —
as the alpha byte) and the blue channel moves from 0 to 195, far outside
the claimed ±4 tolerance. -/
theorem c6_roundtrip_eval :
    ((convertImg c6img .ARGB8565).bind fun j => convertImg j .ARGB8888).map
        (fun k => [k.data 0, k.data 1, k.data 2, k.data 3]) = some [195, 28, 0, 0] := by
  decide

/-- C8, counterexample.  At height 0 (with width 1, 32 bpp) the V5 header
builder emits a height field of 0, which is not negative, so the claim's
"for every width, height and supported bit depth ... declare a negative
height field" fails as stated. -/
theorem c8_counterexample :
    (setBMPHeaderV5 1 0 32).height = 0 ∧ ¬(setBMPHeaderV5 1 0 32).height < 0 := by
  decide

/-- C9.  Every conversion request whose target format is the compressed
RLE_NEW format fails (`convertImg` returns NULL): the encode direction is
unimplemented, and no success value — empty or otherwise — is ever
produced. -/
theorem c9_rle_encode (i : Img) : convertImg i .RLE_NEW = none := by
  cases h : i.format <;> simp [convertImg, h]

/-- Byte loads are below 256. -/
theorem byteAt_lt (mem : Nat → Nat) (i : Nat) : byteAt mem i < 256 :=
  Nat.mod_lt _ (by norm_num)

/-- The 16-bit read macro returns a value below 2^16. -/
theorem getU16_lt (mem : Nat → Nat) (off : Nat) : getU16 mem off < 65536 := by
  have h1 : byteAt mem off < 2 ^ 16 :=
    lt_trans (byteAt_lt mem off) (by norm_num)
  have h2 : byteAt mem (off + 1) <<< 8 < 2 ^ 16 := by
    rw [Nat.shiftLeft_eq]
    have := byteAt_lt mem (off + 1)
    omega
  have := Nat.or_lt_two_pow h1 h2
  simpa using this

/-- C1, amended.  For every height h ≥ 1 (with 4*h in `size_t` range and
no `size_t` underflow in the final subtraction), the size resolver of
`src/dump.c` computes the claimed length
`(lastOffset + ((lastSize & 0x1F) << 16)) + (lastSize >> 5) - 4*h` only
when the low 5 bits of the last size field are zero (in which case the
extension term vanishes and the length is `lastOffset + lastSize/32 -
4*h`); whenever the low 5 bits are non-zero it fails instead, and it
never compares the computed length against the remaining buffer. -/
theorem c1_amended (mem : Nat → Nat) (h : Nat) (h1 : 1 ≤ h) (h2 : 4 * h < 2 ^ 64)
    (hfit : 4 * h ≤ getU16 mem (4 * h - 4) + getU16 mem (4 * h - 2) / 32) :
    (getU16 mem (4 * h - 2) &&& 0x1F = 0 →
      resolveImageSize mem h =
        some (getU16 mem (4 * h - 4) + ((getU16 mem (4 * h - 2) &&& 0x1F) <<< 16) +
          (getU16 mem (4 * h - 2) >>> 5) - 4 * h)) ∧
    (getU16 mem (4 * h - 2) &&& 0x1F ≠ 0 → resolveImageSize mem h = none) := by
  have hmod : h * 4 % 2 ^ 64 = 4 * h := by
    rw [Nat.mul_comm]; exact Nat.mod_eq_of_lt h2
  have hi4 : (4 * h + (2 ^ 64 - 4)) % 2 ^ 64 = 4 * h - 4 := by
    have e : 4 * h + (2 ^ 64 - 4) = (4 * h - 4) + 2 ^ 64 := by omega
    rw [e, Nat.add_mod_right]
    exact Nat.mod_eq_of_lt (by omega)
  have hi2 : (4 * h + (2 ^ 64 - 2)) % 2 ^ 64 = 4 * h - 2 := by
    have e : 4 * h + (2 ^ 64 - 2) = (4 * h - 2) + 2 ^ 64 := by omega
    rw [e, Nat.add_mod_right]
    exact Nat.mod_eq_of_lt (by omega)
  have hA := getU16_lt mem (4 * h - 4)
  have hB := getU16_lt mem (4 * h - 2)
  have hshift : getU16 mem (4 * h - 2) >>> 5 = getU16 mem (4 * h - 2) / 32 := by
    rw [Nat.shiftRight_eq_div_pow]
  have key : resolveImageSize mem h =
      if getU16 mem (4 * h - 2) &&& 0x1F ≠ 0 then none
      else
        some ((getU16 mem (4 * h - 4) + getU16 mem (4 * h - 2) / 32 +
          (2 ^ 64 - 4 * h)) % 2 ^ 64) := by
    unfold resolveImageSize
    rw [hmod, hi4, hi2]
  constructor
  · intro h0
    rw [key, if_neg (by simp [h0])]
    have e : getU16 mem (4 * h - 4) + getU16 mem (4 * h - 2) / 32 + (2 ^ 64 - 4 * h) =
        (getU16 mem (4 * h - 4) + getU16 mem (4 * h - 2) / 32 - 4 * h) + 2 ^ 64 := by
      omega
    rw [e, Nat.add_mod_right, Nat.mod_eq_of_lt (by omega), h0, hshift]
    simp [Nat.zero_shiftLeft]
  · intro h0
    rw [key, if_pos h0]

/-- C1, amended witness: the specification's own size-resolver test vector
(height 2, rows `(0x0000, 0x0020)` and `(0x0020, 0x0040)`), on which the
resolver returns `0x20 + 2 - 8 = 26`. -/
theorem c1_amended_witness :
    resolveImageSize c1memW 2 =
      some (getU16 c1memW (4 * 2 - 4) + ((getU16 c1memW (4 * 2 - 2) &&& 0x1F) <<< 16) +
        (getU16 c1memW (4 * 2 - 2) >>> 5) - 4 * 2) :=
  (c1_amended c1memW 2 (by decide) (by decide) (by decide)).1 (by decide)

/-- C2, amended.  The `get_u16` / `get_u32` macros perform no bounds
check: for every buffer length L, a 16-bit read at an offset with
`off + 2 > L` and a 32-bit read at an offset with `off + 4 > L` do not
fail — there are memories agreeing on all in-bounds bytes (indices below
L) whose reads at that offset differ, so the value is taken from outside
the buffer, and no OutOfBounds failure path exists (the reads are
total). -/
theorem c2_amended (L off : Nat) :
    (L < off + 2 → ∃ m1 m2 : Nat → Nat, (∀ i, i < L → m1 i = m2 i) ∧
      getU16 m1 off ≠ getU16 m2 off) ∧
    (L < off + 4 → ∃ m1 m2 : Nat → Nat, (∀ i, i < L → m1 i = m2 i) ∧
      getU32 m1 off ≠ getU32 m2 off) := by
  constructor
  · intro h
    refine ⟨zeroMem, fun i => if i < L then 0 else 1, ?_, ?_⟩
    · intro i hi; simp [zeroMem, hi]
    · have h1 : ¬ off + 1 < L := by omega
      by_cases hc : off < L <;>
        simp [getU16, byteAt, zeroMem, hc, h1]
  · intro h
    refine ⟨zeroMem, fun i => if i < L then 0 else 1, ?_, ?_⟩
    · intro i hi; simp [zeroMem, hi]
    · have h3 : ¬ off + 3 < L := by omega
      by_cases hc0 : off < L <;> by_cases hc1 : off + 1 < L <;>
        by_cases hc2 : off + 2 < L <;>
          simp [getU32, byteAt, zeroMem, hc0, hc1, hc2, h3]

/-- C2, amended witness: instantiation at buffer length 0, offset 0. -/
theorem c2_amended_witness :
    (∃ m1 m2 : Nat → Nat, (∀ i, i < 0 → m1 i = m2 i) ∧
      getU16 m1 0 ≠ getU16 m2 0) ∧
    (∃ m1 m2 : Nat → Nat, (∀ i, i < 0 → m1 i = m2 i) ∧
      getU32 m1 0 ≠ getU32 m2 0) :=
  ⟨(c2_amended 0 0).1 (by decide), (c2_amended 0 0).2 (by decide)⟩

/-- C3, amended.  The RLE decode loop performs no truncation check: a
1-byte input consisting of a lone repeat command `0x81`, or a lone literal
command `2`, decodes without failing, and whatever byte value sits in the
adjacent memory beyond the declared input size flows into the output. -/
theorem c3_amended (px : Nat) (hpx : px < 256) :
    rleDecode (fun i => if i = 0 then 0x81 else px) 1 = [px, px, px] ∧
      rleDecode (fun i => if i = 0 then 2 else px) 1 = [px, px, px, px, px, px] := by
  have hp : px % 256 = px := Nat.mod_eq_of_lt hpx
  have hc2 : (2 : Nat) &&& 128 = 0 := by decide
  constructor
  · simp [rleDecode, rleAux, byteAt, repeatPixel, hp]
  · simp [rleDecode, rleAux, byteAt, hp, hc2, List.range_succ]

/-- C3, amended witness: adjacent memory holding 9 shows up in the
decoded output. -/
theorem c3_amended_witness :
    rleDecode (fun i => if i = 0 then 0x81 else 9) 1 = [9, 9, 9] ∧
      rleDecode (fun i => if i = 0 then 2 else 9) 1 = [9, 9, 9, 9, 9, 9] :=
  c3_amended 9 (by decide)

/-- The chain loop with no fuel left. -/
theorem parseChain_zero (mem : Nat → Nat) (off : Nat) :
    parseChain mem 0 off = ([], .fuelOut off) := rfl

/-- One unfolding step of the chain loop. -/
theorem parseChain_succ (mem : Nat → Nat) (fuel off : Nat) :
    parseChain mem (fuel + 1) off =
      if getU16 mem off = 0 then ([], .cleanEnd (off + 2))
      else
        match tagAdvance mem off with
        | some adv =>
          ((off, getU16 mem off) :: (parseChain mem fuel (off + adv)).1,
            (parseChain mem fuel (off + adv)).2)
        | none => ([], .unknownTag (getU16 mem off) off) := rfl

/-- Any unknownTag outcome of the chain loop reports the 16-bit tag
actually read at the reported offset; that tag is outside the known set
and is not the 0x0000 terminator. -/
theorem parseChain_unknown_sound (mem : Nat → Nat) :
    ∀ (fuel off : Nat) (recs : List (Nat × Nat)) (t q : Nat),
      parseChain mem fuel off = (recs, .unknownTag t q) →
      getU16 mem q = t ∧ isKnownTag t = false ∧ t ≠ 0 := by
  intro fuel
  induction fuel with
  | zero =>
    intro off recs t q h
    rw [parseChain_zero] at h
    simp at h
  | succ f ih =>
    intro off recs t q h
    rw [parseChain_succ] at h
    by_cases h0 : getU16 mem off = 0
    · rw [if_pos h0] at h
      simp at h
    · rw [if_neg h0] at h
      cases hadv : tagAdvance mem off with
      | some adv =>
        rw [hadv] at h
        have h2 : (parseChain mem f (off + adv)).2 = .unknownTag t q := by
          have h3 := congrArg Prod.snd h
          simpa using h3
        have h4 : parseChain mem f (off + adv) =
            ((parseChain mem f (off + adv)).1, ChainEnd.unknownTag t q) := by
          rw [← h2]
        exact ih (off + adv) (parseChain mem f (off + adv)).1 t q h4
      | none =>
        rw [hadv] at h
        have h5 := congrArg Prod.snd h
        obtain ⟨hteq, hq⟩ : getU16 mem off = t ∧ off = q := by simpa using h5
        subst hteq
        subst hq
        refine ⟨rfl, ?_, h0⟩
        unfold tagAdvance at hadv
        by_cases hk : isKnownTag (getU16 mem off) = true
        · rw [if_pos hk] at hadv
          split at hadv <;> simp at hadv
        · simpa using hk

/-- C5.  Whenever the chain loop stops with an unknown-tag error, the
surfaced tag is exactly the 16-bit value read at the surfaced offset,
outside the known set and distinct from the terminator — the loop stopped
at that tag without consuming it, and the records decoded before it are
returned.  In particular, for every memory holding one valid Image
(StaticHeader, tag 0x0001) record at the chain start offset 16 — which
the dispatcher advances past by its 14-byte size to offset 30 — followed
by a tag not in the known set, the decoder returns exactly that one
decoded record plus the unknown tag at its correct offset 30. -/
theorem c5_unknown_tag :
    (∀ (mem : Nat → Nat) (fuel off : Nat) (recs : List (Nat × Nat)) (t q : Nat),
      parseChain mem fuel off = (recs, .unknownTag t q) →
      getU16 mem q = t ∧ isKnownTag t = false ∧ t ≠ 0) ∧
    (∀ (mem : Nat → Nat) (t fuel : Nat), 2 ≤ fuel → getU16 mem 16 = 0x0001 →
      getU16 mem 30 = t → isKnownTag t = false → t ≠ 0 →
      parseChain mem fuel 16 = ([(16, 0x0001)], .unknownTag t 30)) := by
  refine ⟨parseChain_unknown_sound, ?_⟩
  intro mem t fuel hfuel himg ht hunk hnz
  obtain ⟨f, rfl⟩ : ∃ f, fuel = f + 1 + 1 := ⟨fuel - 2, by omega⟩
  have h14 : tagAdvance mem 16 = some 14 := by
    unfold tagAdvance
    rw [himg, if_pos (show isKnownTag 0x0001 = true from rfl), if_neg (by decide)]
    rfl
  have hnone : tagAdvance mem 30 = none := by
    unfold tagAdvance
    rw [ht, hunk]
    norm_num
  rw [parseChain_succ, himg, h14]
  norm_num
  rw [parseChain_succ, ht, if_neg hnz, hnone]
  exact ⟨rfl, rfl⟩

/-- C5, witness: the concrete chain `c5mem` (one StaticHeader record at
offset 16, then the unknown tag 0x0342 at offset 30). -/
theorem c5_witness :
    parseChain c5mem 2 16 = ([(16, 0x0001)], .unknownTag 0x0342 30) :=
  c5_unknown_tag.2 c5mem 0x0342 2 (by decide) (by decide) (by decide) (by decide)
    (by decide)

/-- The BarDisplay advance equals 8 + 8*count for every byte-valued count,
count = 0 included (there the C `size_t` arithmetic wraps: the summand is
2^64 - 8, and the sum 16 + (2^64 - 8) reduces to 8 mod 2^64). -/
theorem barAdvance_byte (c : Nat) (hc : c < 256) : barAdvance c = 8 + 8 * c := by
  unfold barAdvance
  rcases Nat.eq_zero_or_pos c with rfl | hpos
  · decide
  · have e : c + (2 ^ 64 - 1) = (c - 1) + 2 ^ 64 := by omega
    rw [e, Nat.add_mod_right, Nat.mod_eq_of_lt (show c - 1 < 2 ^ 64 by omega),
      Nat.mod_eq_of_lt (by omega)]
    omega

/-- C7.  The BarDisplay record's cursor advance is
`fixedPrefixSize + count * entrySize` with both sizes 8, for every value
of the embedded count byte (0 and 255 included); the advance of every
other known record type is a function of the tag alone (two memories
carrying the same non-BarDisplay known tag advance identically). -/
theorem c7_record_advance :
    (∀ (mem : Nat → Nat) (off : Nat), getU16 mem off = 0x1201 →
      tagAdvance mem off = some (8 + 8 * byteAt mem (off + 3))) ∧
    (∀ (mem mem' : Nat → Nat) (off off' : Nat),
      getU16 mem' off' = getU16 mem off → isKnownTag (getU16 mem off) = true →
      getU16 mem off ≠ 0x1201 → tagAdvance mem' off' = tagAdvance mem off) := by
  constructor
  · intro mem off h1201
    have hb := barAdvance_byte (byteAt mem (off + 3)) (byteAt_lt mem (off + 3))
    simp [tagAdvance, h1201, isKnownTag, hb]
  · intro mem mem' off off' heq hknown hne
    unfold tagAdvance
    rw [heq]
    simp [hknown, hne]

/-- C7, witness: a BarDisplay record with count byte 5 advances by
8 + 8*5 = 48. -/
theorem c7_witness : tagAdvance c7mem 0 = some (8 + 8 * byteAt c7mem 3) :=
  c7_record_advance.1 c7mem 0 (by decide)

/-- Every fixed-size record struct has positive size. -/
theorem structSize_pos (t : Nat) : 0 < structSize t := by
  unfold structSize
  split <;> norm_num

/-- Every advance the dispatcher computes for a known tag is positive. -/
theorem tagAdvance_pos (mem : Nat → Nat) (off adv : Nat)
    (h : tagAdvance mem off = some adv) : 0 < adv := by
  simp only [tagAdvance] at h
  split at h
  · split at h
    · obtain rfl : barAdvance (byteAt mem (off + 3)) = adv := by simpa using h
      rw [barAdvance_byte _ (byteAt_lt mem (off + 3))]
      omega
    · obtain rfl : structSize (getU16 mem off) = adv := by simpa using h
      exact structSize_pos _
  · simp at h

/-- Every record produced by the chain loop sits at or after the offset
the loop started from. -/
theorem parseChain_offset_le (mem : Nat → Nat) :
    ∀ (fuel off : Nat) (p : Nat × Nat), p ∈ (parseChain mem fuel off).1 → off ≤ p.1 := by
  intro fuel
  induction fuel with
  | zero => intro off p hp; rw [parseChain_zero] at hp; simp at hp
  | succ f ih =>
    intro off p hp
    rw [parseChain_succ] at hp
    by_cases h0 : getU16 mem off = 0
    · rw [if_pos h0] at hp; simp at hp
    · rw [if_neg h0] at hp
      cases hadv : tagAdvance mem off with
      | none => rw [hadv] at hp; simp at hp
      | some adv =>
        rw [hadv] at hp
        simp only [List.mem_cons] at hp
        rcases hp with rfl | hp
        · exact Nat.le_refl off
        · have := ih (off + adv) p hp
          omega

/-- C10.  Every advance the dispatch loop computes for a recognized record
type is strictly positive — for BarDisplay with every count byte value,
count 0 included, where the `size_t` arithmetic wraps to a net advance of
8 — and consequently the offsets of the records decoded by the chain loop
are strictly increasing, so no offset is visited twice. -/
theorem c10_advance_positive :
    (∀ (mem : Nat → Nat) (off adv : Nat), tagAdvance mem off = some adv → 0 < adv) ∧
    (∀ (mem : Nat → Nat) (fuel off : Nat),
      ((parseChain mem fuel off).1.map Prod.fst).Pairwise (· < ·)) := by
  constructor
  · exact tagAdvance_pos
  · intro mem fuel
    induction fuel with
    | zero => intro off; rw [parseChain_zero]; simp
    | succ f ih =>
      intro off
      rw [parseChain_succ]
      by_cases h0 : getU16 mem off = 0
      · rw [if_pos h0]; simp
      · rw [if_neg h0]
        cases hadv : tagAdvance mem off with
        | none => exact List.Pairwise.nil
        | some adv =>
          show (((off, getU16 mem off) :: (parseChain mem f (off + adv)).1).map
            Prod.fst).Pairwise (· < ·)
          simp only [List.map_cons, List.pairwise_cons]
          refine ⟨?_, ih (off + adv)⟩
          intro b hb
          obtain ⟨p, hp, rfl⟩ := List.mem_map.mp hb
          have hle := parseChain_offset_le mem f (off + adv) p hp
          have hpos := tagAdvance_pos mem off adv hadv
          omega

/-- C10, witness: the chain `c10mem` (two records at offsets 16 and 19,
then the terminator) has strictly increasing record offsets, and the
advance of its first record is positive. -/
theorem c10_witness :
    ((parseChain c10mem 5 16).1.map Prod.fst).Pairwise (· < ·) ∧ 0 < 3 :=
  ⟨c10_advance_positive.2 c10mem 5 16, c10_advance_positive.1 c10mem 16 3 (by decide)⟩

/-- C8, amended.  For every width, every supported bit depth, and every
height h with 1 ≤ h < 2^31, each BMP header builder emits
`imageDataSize = rowSize * height` and `fileSize = offset + rowSize *
height` (u32 arithmetic) with `rowSize = ((bpp/8 * width + 3) & ~3)`, and
declares a negative height field; at height 0 the height field is 0, not
negative. -/
theorem c8_amended (w h bpp : Nat) (h1 : 1 ≤ h) (h2 : h < 2 ^ 31) :
    ((bpp = 16 ∨ bpp = 24) →
      (setBMPHeaderClassic w h bpp).imageDataSize = rowSizeU32 bpp w * h % 2 ^ 32 ∧
      (setBMPHeaderClassic w h bpp).fileSize =
        ((setBMPHeaderClassic w h bpp).offset + rowSizeU32 bpp w * h) % 2 ^ 32 ∧
      (setBMPHeaderClassic w h bpp).height < 0) ∧
    ((bpp = 16 ∨ bpp = 24 ∨ bpp = 32) →
      ((setBMPHeaderV4 w h bpp).imageDataSize = rowSizeU32 bpp w * h % 2 ^ 32 ∧
        (setBMPHeaderV4 w h bpp).fileSize =
          ((setBMPHeaderV4 w h bpp).offset + rowSizeU32 bpp w * h) % 2 ^ 32 ∧
        (setBMPHeaderV4 w h bpp).height < 0) ∧
      ((setBMPHeaderV5 w h bpp).imageDataSize = rowSizeU32 bpp w * h % 2 ^ 32 ∧
        (setBMPHeaderV5 w h bpp).fileSize =
          ((setBMPHeaderV5 w h bpp).offset + rowSizeU32 bpp w * h) % 2 ^ 32 ∧
        (setBMPHeaderV5 w h bpp).height < 0)) := by
  have hpos : 0 < i32ofNat h := by
    unfold i32ofNat
    rw [Nat.mod_eq_of_lt (show h < 2 ^ 32 by omega), if_pos h2]
    exact_mod_cast h1
  have hneg : - i32ofNat h < 0 := by omega
  constructor
  · rintro (rfl | rfl)
    · exact ⟨rfl, by
        show (rowSizeU32 16 w * h % 2 ^ 32 + 66) % 2 ^ 32 =
          (66 + rowSizeU32 16 w * h) % 2 ^ 32
        omega, hneg⟩
    · exact ⟨rfl, by
        show (rowSizeU32 24 w * h % 2 ^ 32 + 54) % 2 ^ 32 =
          (54 + rowSizeU32 24 w * h) % 2 ^ 32
        omega, hneg⟩
  · intro hb
    refine ⟨⟨rfl, ?_, hneg⟩, rfl, ?_, hneg⟩
    · show (rowSizeU32 bpp w * h % 2 ^ 32 + 122) % 2 ^ 32 =
        (122 + rowSizeU32 bpp w * h) % 2 ^ 32
      omega
    · show (rowSizeU32 bpp w * h % 2 ^ 32 + 138) % 2 ^ 32 =
        (138 + rowSizeU32 bpp w * h) % 2 ^ 32
      omega

/-- C8, amended witness: the V5 builder at width 3, height 2, 32 bpp. -/
theorem c8_amended_witness :
    (setBMPHeaderV5 3 2 32).imageDataSize = rowSizeU32 32 3 * 2 % 2 ^ 32 ∧
    (setBMPHeaderV5 3 2 32).fileSize =
      ((setBMPHeaderV5 3 2 32).offset + rowSizeU32 32 3 * 2) % 2 ^ 32 ∧
    (setBMPHeaderV5 3 2 32).height < 0 :=
  ((c8_amended 3 2 32 (by decide) (by decide)).2 (Or.inr (Or.inr rfl))).2

/-- C9, witness: the encode request fails on a concrete image. -/
theorem c9_witness : convertImg ⟨1, 1, .ARGB8565, 3, zeroMem⟩ .RLE_NEW = none :=
  c9_rle_encode ⟨1, 1, .ARGB8565, 3, zeroMem⟩

/-- `repeatPixel` emits the pixel `[a, b, c]` n times. -/
theorem repeatPixel_eq_repList (a b c : Nat) :
    ∀ n, repeatPixel a b c n = repList n [a, b, c] := by
  intro n
  induction n with
  | zero => rfl
  | succ m ih => simp [repeatPixel, repList, ih]

/-- The fuelled decoder with no fuel left. -/
theorem rleAux_zero (data : Nat → Nat) (size b : Nat) : rleAux data size 0 b = [] := rfl

/-- One unfolding step of the fuelled decoder. -/
theorem rleAux_succ (data : Nat → Nat) (size f b : Nat) :
    rleAux data size (f + 1) b =
      if b < size then
        if byteAt data b &&& 0x80 ≠ 0 then
          repeatPixel (byteAt data (b + 1)) (byteAt data (b + 2)) (byteAt data (b + 3))
              (byteAt data b &&& 0x7F)
            ++ rleAux data size f (b + 4)
        else
          (List.range (byteAt data b * 3)).map (fun j => byteAt data (b + 1 + j))
            ++ rleAux data size f (b + 1 + byteAt data b * 3)
      else [] := rfl

/-- The spec-side decoder on the empty stream. -/
theorem rleDecodeSpec_nil : rleDecodeSpec [] = [] := by
  simp [rleDecodeSpec]

/-- The spec-side decoder on a repeat command. -/
theorem rleDecodeSpec_rep (cmd p1 p2 p3 : Nat) (rest : List Nat)
    (h : cmd &&& 0x80 ≠ 0) :
    rleDecodeSpec (cmd :: p1 :: p2 :: p3 :: rest) =
      repList (cmd &&& 0x7F) [p1, p2, p3] ++ rleDecodeSpec rest := by
  rw [rleDecodeSpec, if_pos h]
  rfl

/-- The spec-side decoder on a literal command with its full payload. -/
theorem rleDecodeSpec_lit (cmd : Nat) (payload rest : List Nat)
    (h : cmd &&& 0x80 = 0) (hlen : payload.length = 3 * cmd) :
    rleDecodeSpec (cmd :: (payload ++ rest)) = payload ++ rleDecodeSpec rest := by
  rw [rleDecodeSpec, if_neg (by simp [h]), List.take_left' hlen, List.drop_left' hlen]

/-- Entries of a byte list's memory oracle are bytes. -/
theorem listMem_lt (l : List Nat) (hl : ∀ x ∈ l, x < 256) (i : Nat) :
    listMem l i < 256 := by
  unfold listMem
  rcases lt_or_ge i l.length with hi | hi
  · rw [List.getD_eq_getElem l 0 hi]
    exact hl _ (List.getElem_mem hi)
  · rw [List.getD_eq_default l 0 hi]
    norm_num

/-- The C decode loop refines the spec-side decoder: on any well-formed
suffix laid out in memory at position `b`, with the declared size ending
exactly at the suffix's end and enough fuel, the two decoders agree. -/
theorem rleAux_refines (data : Nat → Nat) :
    ∀ (suf : List Nat), RLEWF suf →
      ∀ (size b fuel : Nat), size = b + suf.length → suf.length ≤ fuel →
        (∀ j, j < suf.length → byteAt data (b + j) = suf.getD j 0) →
        rleAux data size fuel b = rleDecodeSpec suf := by
  intro suf wf
  induction wf with
  | nil =>
    intro size b fuel hsize hfuel hdata
    have hb : ¬ b < size := by simp [hsize]
    cases fuel with
    | zero => rw [rleAux_zero, rleDecodeSpec_nil]
    | succ f => rw [rleAux_succ, if_neg hb, rleDecodeSpec_nil]
  | rep cmd p1 p2 p3 rest h80 wfrest ih =>
    intro size b fuel hsize hfuel hdata
    have hlen : (cmd :: p1 :: p2 :: p3 :: rest).length = rest.length + 4 := by simp
    obtain ⟨f, rfl⟩ : ∃ f, fuel = f + 1 := by
      cases fuel with
      | zero => exact absurd hfuel (by simp)
      | succ f => exact ⟨f, rfl⟩
    have hb : b < size := by rw [hsize, hlen]; omega
    have hd0 : byteAt data b = cmd := hdata 0 (by simp)
    have hd1 : byteAt data (b + 1) = p1 := hdata 1 (by simp)
    have hd2 : byteAt data (b + 2) = p2 := hdata 2 (by simp)
    have hd3 : byteAt data (b + 3) = p3 := hdata 3 (by simp)
    rw [rleAux_succ, if_pos hb, hd0, hd1, hd2, hd3, if_pos h80,
      rleDecodeSpec_rep cmd p1 p2 p3 rest h80, repeatPixel_eq_repList]
    congr 1
    apply ih
    · rw [hsize, hlen]; omega
    · rw [hlen] at hfuel; omega
    · intro j hj
      have e : b + 4 + j = b + (j + 4) := by omega
      rw [e]
      exact hdata (j + 4) (by simp only [List.length_cons]; omega)
  | lit cmd payload rest h80 hlen wfrest ih =>
    intro size b fuel hsize hfuel hdata
    have hlen2 : (cmd :: (payload ++ rest)).length = payload.length + rest.length + 1 := by
      simp
    obtain ⟨f, rfl⟩ : ∃ f, fuel = f + 1 := by
      cases fuel with
      | zero => exact absurd hfuel (by simp)
      | succ f => exact ⟨f, rfl⟩
    have hb : b < size := by rw [hsize, hlen2]; omega
    have hd0 : byteAt data b = cmd := hdata 0 (by simp)
    rw [rleAux_succ, if_pos hb, hd0, if_neg (by simp [h80]),
      rleDecodeSpec_lit cmd payload rest h80 hlen]
    congr 1
    · apply List.ext_getElem
      · simp only [List.length_map, List.length_range, hlen]
        omega
      · intro i h1 h2
        simp only [List.getElem_map, List.getElem_range]
        have hi : i < payload.length := h2
        have e : b + 1 + i = b + (i + 1) := by omega
        rw [e]
        have hd := hdata (i + 1)
          (by simp only [List.length_cons, List.length_append]; omega)
        rw [hd, List.getD_cons_succ, List.getD_append _ _ _ _ hi]
        exact List.getD_eq_getElem payload 0 hi
    · apply ih
      · rw [hsize, hlen2]; omega
      · rw [hlen2] at hfuel; omega
      · intro j hj
        have e : b + 1 + cmd * 3 + j = b + (payload.length + j + 1) := by omega
        rw [e]
        have hd := hdata (payload.length + j + 1)
          (by simp only [List.length_cons, List.length_append]; omega)
        rw [hd, List.getD_cons_succ, List.getD_append_right _ _ _ _ (by omega)]
        congr 1
        omega

/-- C4.  The RLE decode loop of `convertImg` implements the specified
algorithm: on every well-formed byte stream it agrees with the spec-side
decoder (repeat commands with the high bit set emit their 3-byte pixel
`cmd & 0x7F` times, literal commands copy `3*cmd` bytes verbatim, until
the input is exhausted); the 4-byte input `[0x83, 0x11, 0x22, 0x33]`
decodes to the 9 bytes `[0x11, 0x22, 0x33]` three times over; and a
literal-count byte followed by exactly `3n` bytes decodes to those bytes
unchanged. -/
theorem c4_rle_decode :
    (∀ buf : List Nat, RLEWF buf → (∀ x ∈ buf, x < 256) →
      rleDecode (listMem buf) buf.length = rleDecodeSpec buf) ∧
    rleDecode (listMem [0x83, 0x11, 0x22, 0x33]) 4 =
      [0x11, 0x22, 0x33, 0x11, 0x22, 0x33, 0x11, 0x22, 0x33] ∧
    (∀ (cmd : Nat) (payload : List Nat), cmd &&& 0x80 = 0 →
      payload.length = 3 * cmd → cmd < 256 → (∀ x ∈ payload, x < 256) →
      rleDecode (listMem (cmd :: payload)) (cmd :: payload).length = payload) := by
  have main : ∀ buf : List Nat, RLEWF buf → (∀ x ∈ buf, x < 256) →
      rleDecode (listMem buf) buf.length = rleDecodeSpec buf := by
    intro buf wf hbytes
    unfold rleDecode
    apply rleAux_refines (listMem buf) buf wf buf.length 0 buf.length (by omega)
      (le_refl _)
    intro j hj
    rw [Nat.zero_add]
    exact Nat.mod_eq_of_lt (listMem_lt buf hbytes j)
  refine ⟨main, by decide, ?_⟩
  intro cmd payload h80 hlen hcmd hpay
  have wf : RLEWF (cmd :: payload) := by
    have h := RLEWF.lit cmd payload [] h80 hlen RLEWF.nil
    rwa [List.append_nil] at h
  have hbytes : ∀ x ∈ cmd :: payload, x < 256 := by
    intro x hx
    rcases List.mem_cons.mp hx with rfl | hx
    · exact hcmd
    · exact hpay x hx
  rw [main (cmd :: payload) wf hbytes]
  have h := rleDecodeSpec_lit cmd payload [] h80 hlen
  rw [List.append_nil] at h
  rw [h, rleDecodeSpec_nil, List.append_nil]

/-- C4, witness: the literal stream `[2, 9, 9, 9, 9, 9, 9]` decodes to its
six payload bytes unchanged. -/
theorem c4_witness :
    rleDecode (listMem [2, 9, 9, 9, 9, 9, 9]) (List.length [2, 9, 9, 9, 9, 9, 9]) =
      [9, 9, 9, 9, 9, 9] :=
  c4_rle_decode.2.2 2 [9, 9, 9, 9, 9, 9] (by decide) (by decide) (by decide) (by decide)

end Adawft
